import Mathlib

/-!
Verification of the retrieval/ranking engine and safety gates of the
experience-cards application (`app.py`).

The Python source is embedded shallowly:

* strings are Lean `String`s, manipulated through their character lists;
* Python floats are modelled as real numbers (`ℝ`);
* `collections.Counter` term-frequency vectors built by `Counter(tokens)`
  are represented by the underlying token list, with `List.count` giving
  the multiplicity of each token;
* SQLite rows of the `experiences` table are the structure `Exp`; the row
  set of a store is passed to the ranking functions as a list, in the
  descending-id order produced by `ORDER BY id DESC`;
* regular-expression searches are modelled by explicit character scanners
  with the same existential semantics (a match exists at some position).
-/

namespace ExpCards

/-! ## Basic string utilities -/

/-- Python whitespace characters (the ASCII part of `\s`). -/
def isPySpace (c : Char) : Bool :=
  c = ' ' || c = '\t' || c = '\n' || c = '\r' || c = '\x0b' || c = '\x0c'

/-- `str.strip()`: remove leading and trailing whitespace. -/
def stripChars (l : List Char) : List Char :=
  ((l.dropWhile isPySpace).reverse.dropWhile isPySpace).reverse

/-- `re.sub(r"\s+", " ", ·)`: collapse every whitespace run to a single space. -/
def collapseWs (l : List Char) : List Char :=
  l.foldr
    (fun c acc =>
      if isPySpace c then
        match acc with
        | ' ' :: _ => acc
        | _ => ' ' :: acc
      else c :: acc)
    []

/-- `normalize` from the source: strip, then collapse whitespace runs. -/
def normalize (s : String) : String :=
  String.mk (collapseWs (stripChars s.data))

/-- `str.lower()` on a whole string (ASCII case mapping). -/
def pyLowerStr (s : String) : String :=
  String.mk (s.data.map Char.toLower)

/-- Does `l` start with `pre`? -/
def beginsWith : List Char → List Char → Bool
  | [], _ => true
  | _ :: _, [] => false
  | a :: as, b :: bs => a = b && beginsWith as bs

/-- Does `l` end with `suf`? -/
def endsWith (suf l : List Char) : Bool :=
  beginsWith suf.reverse l.reverse

/-- Python's `sub in hay` substring test (`hasSub sub hay`). -/
def hasSub (sub : List Char) : List Char → Bool
  | [] => sub.isEmpty
  | c :: cs => beginsWith sub (c :: cs) || hasSub sub cs

/-! ## Tokenizer -/

/-- A character kept by the token character class `[a-z0-9]`. -/
def isTokChar (c : Char) : Bool :=
  ('a' ≤ c && c ≤ 'z') || ('0' ≤ c && c ≤ '9')

/-- Split at every non-token character, keeping empty pieces, like
`re.split(r"[^a-z0-9]+", ·)` does between adjacent separators.  Splitting at
each separator instead of at separator runs only changes the empty pieces,
which the `length ≥ 2` filter of `tokenize` discards either way. -/
def splitNonTok (l : List Char) : List (List Char) :=
  l.foldr
    (fun c acc =>
      if isTokChar c then
        match acc with
        | [] => [[c]]
        | g :: gs => (c :: g) :: gs
      else [] :: acc)
    [[]]

/-- `tokenize` from the source: normalize, lowercase, split on
non-alphanumeric characters, keep pieces of length ≥ 2. -/
def tokenize (s : String) : List String :=
  ((splitNonTok ((normalize s).data.map Char.toLower)).map String.mk).filter
    (fun t => 2 ≤ t.length)

/-! ## Configuration constants -/

def MIN_MATCH_SCORE : ℝ := 18
def MAX_MATCHES : ℕ := 5
def TOP_VISIBLE : ℕ := 3
def MIN_EXPERIENCE_STRUCTURE_SCORE : ℕ := 4

def BANNED_KEYWORDS : List String :=
  ["kill", "suicide", "bomb", "terror", "nazi",
   "send me your otp", "share your otp", "give me your password", "bank password",
   "one-time passcode", "otp code",
   "nudes", "sex"]

def ALLOWED_DOMAINS : List String :=
  ["canada.ca", "fcac-acfc.gc.ca", "cba.ca", "consumerfinance.gov",
   "ftc.gov", "usa.gov", "fca.org.uk"]

/-! ## Safety utilities -/

/-- `contains_banned_keywords`: case-insensitive substring match of any banned
keyword against the normalized text. -/
def contains_banned_keywords (text : String) : Bool :=
  BANNED_KEYWORDS.any
    (fun kw => hasSub (kw.data.map Char.toLower) ((normalize text).data.map Char.toLower))

/-- Length of the URL scheme matched case-insensitively at the head of `l`
(`https?://`), `0` when none matches. -/
def urlSchemeLen (l : List Char) : ℕ :=
  if beginsWith "http://".data (l.map Char.toLower) then 7
  else if beginsWith "https://".data (l.map Char.toLower) then 8
  else 0

/-- Fuel-indexed scanner for `re.findall(r"(https?://[^\s]+)", ·)`: at each
position, a scheme followed by a maximal non-empty run of non-whitespace
characters is one match, and scanning resumes after it. -/
def extractUrlsGo : ℕ → List Char → List (List Char)
  | 0, _ => []
  | _ + 1, [] => []
  | fuel + 1, c :: cs =>
    let n := urlSchemeLen (c :: cs)
    if n = 0 then extractUrlsGo fuel cs
    else
      let body := ((c :: cs).drop n).takeWhile (fun ch => !isPySpace ch)
      if body.isEmpty then extractUrlsGo fuel cs
      else ((c :: cs).take n ++ body) :: extractUrlsGo fuel (((c :: cs).drop n).drop body.length)

/-- `extract_urls` from the source.  The fuel `length + 1` is enough because
every step of `extractUrlsGo` consumes at least one character. -/
def extract_urls (s : String) : List String :=
  (extractUrlsGo (s.data.length + 1) s.data).map String.mk

/-- `domain_allowed`: parse `https?://([^/]+)` at the start of the stripped
URL, lowercase the host, drop the port, and compare against the allowlist
(exact match or subdomain). -/
def domain_allowed (url : String) : Bool :=
  let u := stripChars url.data
  let n := urlSchemeLen u
  if n = 0 then false
  else
    let hostFull := (u.drop n).takeWhile (fun c => c ≠ '/')
    if hostFull.isEmpty then false
    else
      let host := (hostFull.map Char.toLower).takeWhile (fun c => c ≠ ':')
      ALLOWED_DOMAINS.any (fun d => host = d.data || endsWith ('.' :: d.data) host)

/-! ## Regex scanners for the question gate and the structure heuristic

`\w` word characters, used by the `\b` boundary assertions. -/

def isAsciiDigit (c : Char) : Bool := '0' ≤ c && c ≤ '9'

def isAsciiLetter (c : Char) : Bool := ('a' ≤ c && c ≤ 'z') || ('A' ≤ c && c ≤ 'Z')

def isWordChar (c : Char) : Bool := isAsciiLetter c || isAsciiDigit c || c = '_'

/-- `\b` immediately after a word character: the next character must not be a
word character (or the string must end). -/
def endBoundaryWord (l : List Char) : Bool :=
  match l with
  | [] => true
  | c :: _ => !isWordChar c

/-- `\b\d{11}\b` anchored at the head of `l` (`prevWord` is the wordness of
the previous character, `false` at the start of the string). -/
def idNumberAt (prevWord : Bool) (l : List Char) : Bool :=
  !prevWord && decide ((l.take 11).length = 11) && (l.take 11).all isAsciiDigit
    && endBoundaryWord (l.drop 11)

/-- Scan for `re.search(r"\b\d{11}\b", ·)`. -/
def scanIdNumber : Bool → List Char → Bool
  | _, [] => false
  | prevWord, c :: cs => idNumberAt prevWord (c :: cs) || scanIdNumber (isWordChar c) cs

/-- Exactly `n` digits, then continue with `k`. -/
def digitsThen : ℕ → List Char → (List Char → Bool) → Bool
  | 0, l, k => k l
  | _ + 1, [], _ => false
  | n + 1, c :: cs, k => isAsciiDigit c && digitsThen n cs k

/-- The separator class `[-.\s]` of the phone pattern. -/
def isSepChar (c : Char) : Bool := c = '-' || c = '.' || isPySpace c

/-- `[-.\s]?`: try consuming one separator, or none. -/
def optSep (l : List Char) (k : List Char → Bool) : Bool :=
  (match l with
   | c :: cs => isSepChar c && k cs
   | [] => false) || k l

/-- `\b\d{3}[-.\s]?\d{3}[-.\s]?\d{4}\b` anchored at the head of `l`. -/
def phoneAt (prevWord : Bool) (l : List Char) : Bool :=
  !prevWord &&
    digitsThen 3 l (fun l1 =>
      optSep l1 (fun l2 =>
        digitsThen 3 l2 (fun l3 =>
          optSep l3 (fun l4 =>
            digitsThen 4 l4 endBoundaryWord))))

/-- Scan for `re.search(r"\b\d{3}[-.\s]?\d{3}[-.\s]?\d{4}\b", ·)`. -/
def scanPhone : Bool → List Char → Bool
  | _, [] => false
  | prevWord, c :: cs => phoneAt prevWord (c :: cs) || scanPhone (isWordChar c) cs

/-- Local-part class `[A-Z0-9._%+-]` (IGNORECASE). -/
def isLocalChar (c : Char) : Bool :=
  isAsciiLetter c || isAsciiDigit c || c = '.' || c = '_' || c = '%' || c = '+' || c = '-'

/-- Domain class `[A-Z0-9.-]` (IGNORECASE). -/
def isDomainChar (c : Char) : Bool :=
  isAsciiLetter c || isAsciiDigit c || c = '.' || c = '-'

/-- `[A-Z]{2,}\b`: a maximal letter run of length ≥ 2 followed by a
non-word character or the end of the string. -/
def tldThenBoundary (l : List Char) : Bool :=
  let run := l.takeWhile isAsciiLetter
  decide (2 ≤ run.length) && endBoundaryWord (l.drop run.length)

/-- `[A-Z0-9.-]+\.[A-Z]{2,}\b` : some split of the input into one-or-more
domain characters, a literal dot, and the final TLD. -/
def domainScan : Bool → List Char → Bool
  | _, [] => false
  | hasOne, c :: cs =>
    (hasOne && c = '.' && tldThenBoundary cs) ||
      (isDomainChar c && domainScan true cs)

/-- After one-or-more further local characters, an `@` followed by the domain. -/
def localScan : List Char → Bool
  | [] => false
  | c :: cs =>
    (c = '@' && domainScan false cs) || (isLocalChar c && localScan cs)

/-- The email pattern anchored at the head of `l`.  The leading `\b` holds
when the wordness of the previous character differs from that of the first
matched character. -/
def emailAt (prevWord : Bool) (l : List Char) : Bool :=
  match l with
  | [] => false
  | c :: cs => (prevWord != isWordChar c) && isLocalChar c && localScan cs

/-- Scan for `re.search(r"\b[A-Z0-9._%+-]+@[A-Z0-9.-]+\.[A-Z]{2,}\b", ·,
re.IGNORECASE)`; the subject is lowercased before scanning. -/
def scanEmail : Bool → List Char → Bool
  | _, [] => false
  | prevWord, c :: cs => emailAt prevWord (c :: cs) || scanEmail (isWordChar c) cs

/-- A whole word `\b w \b` anchored at the head of `l` (all our words are
letter-only, so both boundaries reduce to non-wordness of the neighbours). -/
def wordAt (w : List Char) (prevWord : Bool) (l : List Char) : Bool :=
  !prevWord && beginsWith w l && endBoundaryWord (l.drop w.length)

/-- Scan for a whole-word occurrence of any word in `ws`. -/
def scanWords (ws : List (List Char)) : Bool → List Char → Bool
  | _, [] => false
  | prevWord, c :: cs =>
    ws.any (fun w => wordAt w prevWord (c :: cs)) || scanWords ws (isWordChar c) cs

/-- Scan for `\b(w1)\b.*\b(w2)\b`: a whole word of `ws1` followed anywhere
later by a whole word of `ws2`. -/
def scanPair (ws1 ws2 : List (List Char)) : Bool → List Char → Bool
  | _, [] => false
  | prevWord, c :: cs =>
    (ws1.any (fun w => wordAt w prevWord (c :: cs) && scanWords ws2 true ((c :: cs).drop w.length)))
      || scanPair ws1 ws2 (isWordChar c) cs

/-- Sentence separators `[.!?]`. -/
def isSentSep (c : Char) : Bool := c = '.' || c = '!' || c = '?'

/-- Number of maximal runs of sentence separators. -/
def countSepRuns : Bool → List Char → ℕ
  | _, [] => 0
  | inSep, c :: cs =>
    if isSentSep c then (if inSep then 0 else 1) + countSepRuns true cs
    else countSepRuns false cs

/-- `len(re.split(r"[.!?]+", ·))`: one more piece than separator runs. -/
def sentencePieces (l : List Char) : ℕ := countSepRuns false l + 1

def firstPersonWords : List (List Char) := ["i".data, "we".data]

def experienceVerbs : List (List Char) :=
  ["was".data, "were".data, "had".data, "noticed".data, "experienced".data]

def actionVerbs : List (List Char) :=
  ["tried".data, "did".data, "checked".data, "called".data, "waited".data,
   "updated".data, "reset".data]

def outcomeWords : List (List Char) :=
  ["resolved".data, "fixed".data, "worked".data, "failed".data, "eventually".data,
   "later".data, "outcome".data, "result".data]

/-- `structure_score` from the source: five +1 heuristics on the normalized
content (the three word patterns carry `re.IGNORECASE`, hence the lowered
scan subject). -/
def structure_score (content : String) : ℕ :=
  let c := normalize content
  let cl := c.data.map Char.toLower
  (if 120 ≤ c.length then 1 else 0)
    + (if scanPair firstPersonWords experienceVerbs false cl then 1 else 0)
    + (if scanPair firstPersonWords actionVerbs false cl then 1 else 0)
    + (if scanWords outcomeWords false cl then 1 else 0)
    + (if 3 ≤ sentencePieces c.data then 1 else 0)

/-- `safety_check_experience` from the source: banned keywords over the
space-joined blob, then the URL allowlist over the content, then the
structure heuristic. -/
def safety_check_experience (title category tags content : String) : Bool × String :=
  let blob := title ++ " " ++ category ++ " " ++ tags ++ " " ++ content
  if contains_banned_keywords blob then (false, "banned_keywords")
  else if (extract_urls content).any (fun u => !domain_allowed u) then
    (false, "disallowed_domain")
  else if structure_score content < MIN_EXPERIENCE_STRUCTURE_SCORE then
    (false, "low_structure_score")
  else (true, "ok")

/-- `safety_check_question` from the source: five checks in order with
short-circuit on the first failure. -/
def safety_check_question (question : String) : Bool × String :=
  if contains_banned_keywords question then (false, "banned_keywords")
  else if !(extract_urls question).isEmpty then (false, "url_not_allowed")
  else if scanIdNumber false question.data then (false, "possible_id_number")
  else if scanPhone false question.data then (false, "possible_phone")
  else if scanEmail false question.data then (false, "possible_email")
  else (true, "ok")

/-! ## Term vectors and cosine similarity

A `Counter(tokens)` term-frequency vector is represented by its token list:
the count of `t` is `List.count t`, and the support (`Counter.items()`) is
`List.toFinset`.  Counters built by the term-vector builder carry exactly the
positive counts of their token list, so the Python emptiness test `not a`
is `a = []` here. -/

/-- `dot`: sum over the support of `a` of the products of counts. -/
noncomputable def dotC (a b : List String) : ℝ :=
  ∑ t ∈ a.toFinset, (a.count t : ℝ) * (b.count t : ℝ)

/-- `sum(v * v for v in a.values())`, the square of the Euclidean norm. -/
noncomputable def normSq (a : List String) : ℝ :=
  ∑ t ∈ a.toFinset, (a.count t : ℝ) * (a.count t : ℝ)

/-- `cosine_sim` from the source: `0.0` for an empty counter or a zero norm,
otherwise `dot / (na * nb)`. -/
noncomputable def cosine_sim (a b : List String) : ℝ :=
  if a = [] ∨ b = [] then 0
  else if Real.sqrt (normSq a) = 0 ∨ Real.sqrt (normSq b) = 0 then 0
  else dotC a b / (Real.sqrt (normSq a) * Real.sqrt (normSq b))

/-- `round(x, 2)`.  Python rounds ties of the binary float to even; no claim
touches a tie, so rounding to the nearest hundredth is used. -/
noncomputable def round2 (x : ℝ) : ℝ := (round (x * 100) : ℤ) / 100

/-! ## Experience cards and scoring -/

/-- A row of the `experiences` table. -/
structure Exp where
  id : ℤ
  title : String
  category : String
  tags : String
  content : String
  content_lang : String
  created_at : String
deriving DecidableEq

/-- One entry of the human-readable `why` trail.  The Python code stores
formatted strings; the constructors carry the formatted data instead. -/
inductive Why where
  | textSim (sim : ℝ) : Why
  | tagOverlap (bonus : ℝ) (tags : List String) : Why
  | categoryMatch : Why

/-- The dict returned by `score_experience`: the card fields plus the final
rounded score and the explanation trail. -/
structure Scored where
  id : ℤ
  title : String
  category : String
  tags : String
  content : String
  content_lang : String
  created_at : String
  score : ℝ
  why : List Why

/-- `str.split(",")`: split at every comma, keeping empty pieces. -/
def splitOnComma (l : List Char) : List (List Char) :=
  l.foldr
    (fun c acc =>
      if c = ',' then [] :: acc
      else
        match acc with
        | [] => [[c]]
        | g :: gs => (c :: g) :: gs)
    [[]]

/-- `[x.strip().lower() for x in tags.split(",") if x.strip()]`. -/
def tagList (tags : String) : List String :=
  ((((splitOnComma tags.data).map String.mk).filter
    (fun x => String.mk (stripChars x.data) ≠ "")).map
    (fun x => pyLowerStr (String.mk (stripChars x.data))))

/-- `overlap = [tg for tg in exp_tags if tg in q_set]` (duplicate stored tags
are kept, as in the Python list comprehension). -/
def overlapOf (question : String) (e : Exp) : List String :=
  (tagList e.tags).filter (fun tg => decide (tg ∈ tokenize question))

/-- The condition of the category bonus: `cat and cat in
normalize(question).lower()`. -/
def catHit (question : String) (e : Exp) : Bool :=
  !(pyLowerStr e.category).isEmpty
    && hasSub (pyLowerStr e.category).data (pyLowerStr (normalize question)).data

/-- `score_experience` from the source. -/
noncomputable def score_experience (question : String) (e : Exp) : Scored :=
  let sim := cosine_sim (tokenize question) (tokenize e.content)
  let overlap := overlapOf question e
  let bonus := min (15 : ℝ) (3 * (overlap.length : ℝ))
  let score :=
    sim * 100 + (if overlap.isEmpty then 0 else bonus) + (if catHit question e then 5 else 0)
  { id := e.id, title := e.title, category := e.category, tags := e.tags,
    content := e.content, content_lang := e.content_lang, created_at := e.created_at,
    score := round2 score,
    why := [Why.textSim sim]
      ++ (if overlap.isEmpty then [] else [Why.tagOverlap bonus (overlap.take 6)])
      ++ (if catHit question e then [Why.categoryMatch] else []) }

/-- The score before the category-match bonus is considered: base cosine part
plus the tag-overlap bonus. -/
noncomputable def preCategoryScore (question : String) (e : Exp) : ℝ :=
  cosine_sim (tokenize question) (tokenize e.content) * 100
    + (if (overlapOf question e).isEmpty then 0
       else min (15 : ℝ) (3 * ((overlapOf question e).length : ℝ)))

/-- The category-match contribution: `5` exactly when `catHit`. -/
noncomputable def catBonus (question : String) (e : Exp) : ℝ :=
  if catHit question e then 5 else 0

/-! ## Candidate filter / ranker -/

/-- The sort order of `scored.sort(key=..., reverse=True)`: score descending.
`List.insertionSort` with this relation is a stable descending sort, which is
what Python's stable `sort` with `reverse=True` performs. -/
def scoreGe (a b : Scored) : Prop := b.score ≤ a.score

noncomputable instance : DecidableRel scoreGe := fun a b => Real.decidableLE b.score a.score

instance : IsTotal Scored scoreGe := ⟨fun a b => le_total b.score a.score⟩

instance : IsTrans Scored scoreGe := ⟨fun _ _ _ h1 h2 => le_trans h2 h1⟩

/-- `[score_experience(question, r) for r in rows]`. -/
noncomputable def scoredOf (question : String) (rows : List Exp) : List Scored :=
  rows.map (score_experience question)

/-- `[s for s in scored if s["score"] >= min_score]`; the spec treats the
threshold as a configuration constant, so it is a parameter here. -/
noncomputable def keptOf (minScore : ℝ) (question : String) (rows : List Exp) : List Scored :=
  (scoredOf question rows).filter (fun s => decide (minScore ≤ s.score))

/-- The kept results after the stable descending sort by score. -/
noncomputable def rankedOf (minScore : ℝ) (question : String) (rows : List Exp) : List Scored :=
  List.insertionSort scoreGe (keptOf minScore question rows)

/-- Score, filter by `minScore`, sort descending, truncate to `limit`. -/
noncomputable def get_top_matches_min (minScore : ℝ) (rows : List Exp) (question : String)
    (limit : ℕ) : List Scored :=
  (rankedOf minScore question rows).take limit

/-- `_region_clause` from the source: the needle of the `tags LIKE ?` clause
(the source wraps it as `%usa%` / `%canada%`). -/
def _region_clause (region : String) : String :=
  if region = "us" then "usa" else "canada"

/-- `tags LIKE '%needle%'`: SQLite `LIKE` is ASCII case-insensitive. -/
def likeContains (needle s : String) : Bool :=
  hasSub (needle.data.map Char.toLower) (s.data.map Char.toLower)

/-- The demo-mode row selection `SELECT * FROM experiences WHERE (tags LIKE ?)
ORDER BY id DESC`, applied to the descending-id row list. -/
def demoSelect (rows : List Exp) (region : String) : List Exp :=
  rows.filter (fun e => likeContains (_region_clause region) e.tags)

/-- `get_top_matches` from the source.  `rows` is the store's row set in the
descending-id order of the SQL query. -/
noncomputable def get_top_matches (rows : List Exp) (question region : String)
    (demo_region_filter : Bool) (limit : ℕ) : List Scored :=
  get_top_matches_min MIN_MATCH_SCORE
    (if demo_region_filter then demoSelect rows region else rows) question limit

/-! ## The ask endpoint -/

/-- The `/ask` handler.  `rows` is the row set of the store selected by
`pick_db_path(presentation)`; HTTP 400 rejections are `Except.error` carrying
the reason, success is the `{question, matches}` payload.  The `lang`
parameter only localizes messages and does not affect the outcome shape. -/
noncomputable def ask (rows : List Exp) (question0 region0 _lang0 presentation : String) :
    Except String (String × List Scored) :=
  let question := normalize question0
  let region := if pyLowerStr region0 = "ca" ∨ pyLowerStr region0 = "us"
                then pyLowerStr region0 else "ca"
  if question = "" ∨ question.length < 8 then Except.error "question_too_short"
  else if (safety_check_question question).1 = false then
    Except.error (safety_check_question question).2
  else
    Except.ok (question,
      get_top_matches rows question region (presentation = "1") MAX_MATCHES)

/-! ## Lemmas about the term vectors -/

lemma count_cast_nonneg (a : List String) (t : String) : (0 : ℝ) ≤ (a.count t : ℝ) := by
  exact_mod_cast Nat.zero_le _

lemma count_eq_zero_of_not_mem_toFinset {a : List String} {t : String}
    (h : t ∉ a.toFinset) : a.count t = 0 := by
  rw [List.mem_toFinset] at h
  exact List.count_eq_zero.mpr h

lemma dotC_eq_union (a b : List String) :
    dotC a b = ∑ t ∈ a.toFinset ∪ b.toFinset, (a.count t : ℝ) * (b.count t : ℝ) := by
  refine Finset.sum_subset Finset.subset_union_left (fun t _ ht => ?_)
  rw [count_eq_zero_of_not_mem_toFinset ht]
  simp

lemma normSq_eq_left_union (a b : List String) :
    normSq a = ∑ t ∈ a.toFinset ∪ b.toFinset, (a.count t : ℝ) * (a.count t : ℝ) := by
  refine Finset.sum_subset Finset.subset_union_left (fun t _ ht => ?_)
  rw [count_eq_zero_of_not_mem_toFinset ht]
  simp

lemma normSq_eq_right_union (a b : List String) :
    normSq b = ∑ t ∈ a.toFinset ∪ b.toFinset, (b.count t : ℝ) * (b.count t : ℝ) := by
  refine Finset.sum_subset Finset.subset_union_right (fun t _ ht => ?_)
  rw [count_eq_zero_of_not_mem_toFinset ht]
  simp

lemma dotC_comm (a b : List String) : dotC a b = dotC b a := by
  rw [dotC_eq_union a b, dotC_eq_union b a, Finset.union_comm]
  exact Finset.sum_congr rfl (fun t _ => mul_comm _ _)

lemma dotC_nonneg (a b : List String) : 0 ≤ dotC a b :=
  Finset.sum_nonneg fun t _ => mul_nonneg (count_cast_nonneg a t) (count_cast_nonneg b t)

lemma normSq_nonneg (a : List String) : 0 ≤ normSq a :=
  Finset.sum_nonneg fun t _ => mul_nonneg (count_cast_nonneg a t) (count_cast_nonneg a t)

lemma normSq_pos_of_ne_nil {a : List String} (h : a ≠ []) : 0 < normSq a := by
  obtain ⟨t, ts, rfl⟩ := List.exists_cons_of_ne_nil h
  refine Finset.sum_pos' (fun u _ => mul_nonneg (count_cast_nonneg _ u) (count_cast_nonneg _ u))
    ⟨t, ?_, ?_⟩
  · simp [List.mem_toFinset]
  · have hc : 0 < (t :: ts).count t := List.count_pos_iff.mpr (List.mem_cons_self t ts)
    have hc' : (0 : ℝ) < ((t :: ts).count t : ℝ) := by exact_mod_cast hc
    exact mul_pos hc' hc'

lemma cauchy_schwarz_counts (a b : List String) :
    dotC a b ^ 2 ≤ normSq a * normSq b := by
  rw [dotC_eq_union a b, normSq_eq_left_union a b, normSq_eq_right_union a b]
  have h := Finset.sum_mul_sq_le_sq_mul_sq (a.toFinset ∪ b.toFinset)
    (fun t => (a.count t : ℝ)) (fun t => (b.count t : ℝ))
  calc (∑ t ∈ a.toFinset ∪ b.toFinset, (a.count t : ℝ) * (b.count t : ℝ)) ^ 2
      ≤ (∑ t ∈ a.toFinset ∪ b.toFinset, (a.count t : ℝ) ^ 2)
        * ∑ t ∈ a.toFinset ∪ b.toFinset, (b.count t : ℝ) ^ 2 := h
    _ = _ := by
        congr 1
        · exact Finset.sum_congr rfl (fun t _ => pow_two _)
        · exact Finset.sum_congr rfl (fun t _ => pow_two _)

lemma toFinset_eq_of_count_eq {a b : List String} (h : ∀ t, a.count t = b.count t) :
    a.toFinset = b.toFinset := by
  ext t
  rw [List.mem_toFinset, List.mem_toFinset, ← List.count_pos_iff, ← List.count_pos_iff, h t]

/-- C1: cosine similarity over term-frequency vectors built from token lists
is symmetric, lies in `[0, 1]`, equals `1` on equal non-empty vectors (equal
counts everywhere), and is exactly `0` when either vector is empty or has a
zero norm — the guards return `0` before any division can happen. -/
theorem c1_cosine_sim_props (a b : List String) :
    cosine_sim a b = cosine_sim b a
    ∧ 0 ≤ cosine_sim a b
    ∧ cosine_sim a b ≤ 1
    ∧ ((∀ t, a.count t = b.count t) → a ≠ [] → cosine_sim a b = 1)
    ∧ (a = [] ∨ b = [] ∨ normSq a = 0 ∨ normSq b = 0 → cosine_sim a b = 0) := by
  refine ⟨?_, ?_, ?_, ?_, ?_⟩
  · by_cases ha : a = []
    · simp [cosine_sim, ha]
    · by_cases hb : b = []
      · simp [cosine_sim, hb]
      · rw [cosine_sim, cosine_sim, if_neg (show ¬(a = [] ∨ b = []) by tauto),
          if_neg (show ¬(b = [] ∨ a = []) by tauto)]
        by_cases hsa : Real.sqrt (normSq a) = 0
        · simp [hsa]
        · by_cases hsb : Real.sqrt (normSq b) = 0
          · simp [hsb]
          · rw [if_neg (show ¬(Real.sqrt (normSq a) = 0 ∨ Real.sqrt (normSq b) = 0) by tauto),
              if_neg (show ¬(Real.sqrt (normSq b) = 0 ∨ Real.sqrt (normSq a) = 0) by tauto),
              dotC_comm a b, mul_comm (Real.sqrt (normSq a)) (Real.sqrt (normSq b))]
  · rw [cosine_sim]
    split_ifs
    · exact le_refl 0
    · exact le_refl 0
    · exact div_nonneg (dotC_nonneg a b)
        (mul_nonneg (Real.sqrt_nonneg _) (Real.sqrt_nonneg _))
  · rw [cosine_sim]
    split_ifs with h1 h2
    · exact zero_le_one
    · exact zero_le_one
    · push_neg at h2
      have hapos : 0 < Real.sqrt (normSq a) :=
        lt_of_le_of_ne (Real.sqrt_nonneg _) (Ne.symm h2.1)
      have hbpos : 0 < Real.sqrt (normSq b) :=
        lt_of_le_of_ne (Real.sqrt_nonneg _) (Ne.symm h2.2)
      rw [div_le_one (mul_pos hapos hbpos)]
      have hd : dotC a b ≤ Real.sqrt (normSq a * normSq b) :=
        (Real.le_sqrt (dotC_nonneg a b)
          (mul_nonneg (normSq_nonneg a) (normSq_nonneg b))).mpr (cauchy_schwarz_counts a b)
      calc dotC a b ≤ Real.sqrt (normSq a * normSq b) := hd
        _ = Real.sqrt (normSq a) * Real.sqrt (normSq b) := Real.sqrt_mul (normSq_nonneg a) _
  · intro hcnt ha
    have hb : b ≠ [] := by
      obtain ⟨t, ts, rfl⟩ := List.exists_cons_of_ne_nil ha
      have hc : 0 < (t :: ts).count t := List.count_pos_iff.mpr (List.mem_cons_self t ts)
      rw [hcnt t] at hc
      exact List.ne_nil_of_mem (List.count_pos_iff.mp hc)
    have hfin : a.toFinset = b.toFinset := toFinset_eq_of_count_eq hcnt
    have hnb : normSq b = normSq a := by
      rw [normSq, normSq, ← hfin]
      exact Finset.sum_congr rfl (fun t _ => by rw [hcnt t])
    have hdot : dotC a b = normSq a := by
      rw [dotC, normSq]
      exact Finset.sum_congr rfl (fun t _ => by rw [hcnt t])
    have hpos : 0 < normSq a := normSq_pos_of_ne_nil ha
    have hs : 0 < Real.sqrt (normSq a) := Real.sqrt_pos.mpr hpos
    rw [cosine_sim, if_neg (by tauto), hnb, if_neg (by simp [ne_of_gt hs]), hdot,
      Real.mul_self_sqrt (normSq_nonneg a)]
    exact div_self (ne_of_gt hpos)
  · intro h
    rcases h with h | h | h | h
    · simp [cosine_sim, h]
    · simp [cosine_sim, h]
    · rw [cosine_sim]
      split_ifs with h1 h2
      · rfl
      · rfl
      · exact absurd (Or.inl (by rw [h, Real.sqrt_zero])) h2
    · rw [cosine_sim]
      split_ifs with h1 h2
      · rfl
      · rfl
      · exact absurd (Or.inr (by rw [h, Real.sqrt_zero])) h2

/-- Witness for C1 at concrete vectors: `Counter(["ab"])` against itself has
similarity `1`, and against the empty vector similarity `0`. -/
theorem c1_cosine_sim_props_witness :
    cosine_sim ["ab"] ["ab"] = 1 ∧ cosine_sim [] ["ab"] = 0 :=
  ⟨(c1_cosine_sim_props ["ab"] ["ab"]).2.2.2.1 (fun _ => rfl) (by decide),
   (c1_cosine_sim_props [] ["ab"]).2.2.2.2 (Or.inl rfl)⟩

/-! ## Lemmas about `score_experience` -/

lemma round2_intCast (n : ℤ) : round2 ((n : ℝ)) = (n : ℝ) := by
  rw [round2]
  have h : ((n : ℝ) * 100) = (((n * 100 : ℤ) : ℤ) : ℝ) := by push_cast; ring
  rw [h, round_intCast]
  push_cast
  rw [mul_div_cancel_right₀]
  norm_num

lemma score_experience_score (q : String) (e : Exp) :
    (score_experience q e).score
      = round2 (cosine_sim (tokenize q) (tokenize e.content) * 100
          + (if (overlapOf q e).isEmpty then 0
             else min (15 : ℝ) (3 * ((overlapOf q e).length : ℝ)))
          + (if catHit q e then 5 else 0)) := rfl

lemma cosine_sim_nil_right (a : List String) : cosine_sim a [] = 0 := by
  simp [cosine_sim]

lemma score_experience_score_empty_content (q : String) (e : Exp)
    (he : tokenize e.content = []) :
    (score_experience q e).score
      = round2 ((if (overlapOf q e).isEmpty then 0
            else min (15 : ℝ) (3 * ((overlapOf q e).length : ℝ)))
          + (if catHit q e then 5 else 0)) := by
  rw [score_experience_score, he, cosine_sim_nil_right]
  congr 1
  ring

/-- C2 (amended): in `score_experience`, the tag-overlap bonus is added iff
the overlap between the processed tag list and the query's token set is
non-empty — equivalently, iff the *set* of overlapping tags is non-empty —
and the added bonus is `min 15 (3 * overlap.length)` where `overlap` is the
Python *list* comprehension, counting duplicate stored tags with
multiplicity (the original claim's set cardinality disagrees when the tags
field repeats a tag). -/
theorem c2_tag_overlap_bonus (q : String) (e : Exp) :
    (overlapOf q e ≠ [] →
      (score_experience q e).score
        = round2 (cosine_sim (tokenize q) (tokenize e.content) * 100
            + min (15 : ℝ) (3 * ((overlapOf q e).length : ℝ)) + catBonus q e))
    ∧ (overlapOf q e = [] →
      (score_experience q e).score
        = round2 (cosine_sim (tokenize q) (tokenize e.content) * 100 + catBonus q e))
    ∧ (overlapOf q e ≠ [] ↔ (overlapOf q e).dedup ≠ []) := by
  refine ⟨?_, ?_, ?_⟩
  · intro h
    have hie : (overlapOf q e).isEmpty = false := by
      cases hov : overlapOf q e with
      | nil => exact absurd hov h
      | cons x xs => rfl
    rw [score_experience_score, hie, catBonus]
    simp
  · intro h
    have hie : (overlapOf q e).isEmpty = true := by rw [h]; rfl
    rw [score_experience_score, hie, catBonus]
    simp
  · rw [not_iff_not]
    exact ⟨fun h => by rw [h]; rfl, fun h => by rwa [← List.dedup_eq_nil]⟩

/-- Witness for C2 at the spec's six-tag example: all six tags occur in the
query, the bonus is capped at `15.0` (not `18.0`), and with empty content and
category the final score is exactly `15`. -/
theorem c2_tag_overlap_bonus_witness :
    (score_experience "otp pending transfer login suspicious scam and unrelated text"
      (Exp.mk 1 "t" "" "otp,pending,transfer,login,suspicious,scam" "" "en" "")).score = 15 := by
  have h := (c2_tag_overlap_bonus
    "otp pending transfer login suspicious scam and unrelated text"
    (Exp.mk 1 "t" "" "otp,pending,transfer,login,suspicious,scam" "" "en" "")).1 (by decide)
  rw [h, show tokenize (Exp.mk 1 "t" "" "otp,pending,transfer,login,suspicious,scam" "" "en"
      "").content = [] from rfl, cosine_sim_nil_right,
    show (overlapOf "otp pending transfer login suspicious scam and unrelated text"
      (Exp.mk 1 "t" "" "otp,pending,transfer,login,suspicious,scam" "" "en" "")).length = 6
      from by decide, catBonus,
    show catHit "otp pending transfer login suspicious scam and unrelated text"
      (Exp.mk 1 "t" "" "otp,pending,transfer,login,suspicious,scam" "" "en" "") = false
      from by decide]
  have h15 := round2_intCast 15
  norm_num at h15 ⊢
  exact h15

/-- Counterexample for C2 as stated: for a card whose tags field repeats a
tag (`"otp,otp"`), the added bonus is `3.0 * 2 = 6.0`, not
`min(15.0, 3.0 * |set overlap|) = 3.0` — the code counts the overlap list
with multiplicity, not the set of overlapping tags. -/
theorem c2_tag_overlap_bonus_cex :
    ¬ ((score_experience "need otp help" (Exp.mk 1 "t" "" "otp,otp" "" "en" "")).score
      = round2 (cosine_sim (tokenize "need otp help")
            (tokenize (Exp.mk 1 "t" "" "otp,otp" "" "en" "").content) * 100
          + min (15 : ℝ)
              (3 * (((overlapOf "need otp help"
                  (Exp.mk 1 "t" "" "otp,otp" "" "en" "")).dedup).length : ℝ))
          + catBonus "need otp help" (Exp.mk 1 "t" "" "otp,otp" "" "en" ""))) := by
  intro h
  rw [score_experience_score,
    show tokenize (Exp.mk 1 "t" "" "otp,otp" "" "en" "").content = [] from rfl,
    cosine_sim_nil_right] at h
  simp only [show (overlapOf "need otp help" (Exp.mk 1 "t" "" "otp,otp" "" "en" "")).isEmpty
        = false from by decide,
    show (overlapOf "need otp help" (Exp.mk 1 "t" "" "otp,otp" "" "en" "")).length = 2
      from by decide,
    show ((overlapOf "need otp help" (Exp.mk 1 "t" "" "otp,otp" "" "en" "")).dedup).length = 1
      from by decide,
    catBonus,
    show catHit "need otp help" (Exp.mk 1 "t" "" "otp,otp" "" "en" "") = false from by decide,
    Bool.false_eq_true, if_false] at h
  have h6 := round2_intCast 6
  have h3 := round2_intCast 3
  norm_num [min_def] at h h6 h3
  rw [h6, h3] at h
  norm_num at h

/-- C6 (amended): the category-match contribution of `score_experience` is a
flat `5.0` added exactly when the card's lowercased category is *non-empty*
and appears as a substring of the normalized, lowercased query; evaluating
the rule contributes exactly `0` or exactly `5`, never more.  (As literally
stated the claim fails for an empty category string, which is a substring of
every query but never earns the bonus — see the counterexample.) -/
theorem c6_category_bonus (q : String) (e : Exp) :
    (score_experience q e).score = round2 (preCategoryScore q e + catBonus q e)
    ∧ (catBonus q e = 0 ∨ catBonus q e = 5)
    ∧ (catBonus q e = 5 ↔ (pyLowerStr e.category ≠ ""
        ∧ hasSub (pyLowerStr e.category).data (pyLowerStr (normalize q)).data = true)) := by
  refine ⟨?_, ?_, ?_⟩
  · rw [score_experience_score, preCategoryScore, catBonus]
  · rw [catBonus]
    by_cases h : catHit q e <;> simp [h]
  · have hiff : catHit q e = true ↔ (pyLowerStr e.category ≠ ""
        ∧ hasSub (pyLowerStr e.category).data (pyLowerStr (normalize q)).data = true) := by
      rw [catHit, Bool.and_eq_true, Bool.not_eq_true']
      constructor
      · rintro ⟨h1, h2⟩
        refine ⟨fun hc => ?_, h2⟩
        rw [← String.isEmpty_iff] at hc
        rw [h1] at hc
        exact absurd hc (by decide)
      · rintro ⟨h1, h2⟩
        refine ⟨?_, h2⟩
        cases hie : (pyLowerStr e.category).isEmpty
        · rfl
        · exact absurd ((String.isEmpty_iff _).mp hie) h1
    rw [catBonus, ← hiff]
    by_cases h : catHit q e <;> simp [h]

/-- Witness for C6 at a concrete pair: category `"transfers"` is a substring
of the query, so the final score of an otherwise blank card is exactly the
bonus `5`. -/
theorem c6_category_bonus_witness :
    (score_experience "about wire transfers" (Exp.mk 1 "t" "transfers" "" "" "en" "")).score = 5
    ∧ catBonus "about wire transfers" (Exp.mk 1 "t" "transfers" "" "" "en" "") = 5 := by
  have h := (c6_category_bonus "about wire transfers"
    (Exp.mk 1 "t" "transfers" "" "" "en" "")).1
  have hb : catBonus "about wire transfers" (Exp.mk 1 "t" "transfers" "" "" "en" "") = 5 :=
    (c6_category_bonus "about wire transfers" (Exp.mk 1 "t" "transfers" "" "" "en" "")).2.2.mpr
      ⟨by decide, by decide⟩
  refine ⟨?_, hb⟩
  rw [h, hb, preCategoryScore,
    show tokenize (Exp.mk 1 "t" "transfers" "" "" "en" "").content = [] from rfl,
    cosine_sim_nil_right,
    show (overlapOf "about wire transfers"
      (Exp.mk 1 "t" "transfers" "" "" "en" "")).isEmpty = true from by decide]
  have h5 := round2_intCast 5
  norm_num at h5 ⊢
  exact h5

/-- Counterexample for C6 as stated: for a card with an *empty* category the
substring condition holds for every query (the empty string is a substring
of everything) yet the `5.0` bonus is not added, because the code's guard is
`cat and cat in ...`. -/
theorem c6_category_bonus_cex :
    hasSub (pyLowerStr (Exp.mk 1 "t" "" "" "" "en" "").category).data
        (pyLowerStr (normalize "my transfer is pending")).data = true
    ∧ (score_experience "my transfer is pending" (Exp.mk 1 "t" "" "" "" "en" "")).score
        ≠ round2 (preCategoryScore "my transfer is pending" (Exp.mk 1 "t" "" "" "" "en" "")
            + 5) := by
  refine ⟨by decide, ?_⟩
  rw [score_experience_score,
    show tokenize (Exp.mk 1 "t" "" "" "" "en" "").content = [] from rfl,
    cosine_sim_nil_right, preCategoryScore,
    show tokenize (Exp.mk 1 "t" "" "" "" "en" "").content = [] from rfl,
    cosine_sim_nil_right,
    show (overlapOf "my transfer is pending" (Exp.mk 1 "t" "" "" "" "en" "")).isEmpty = true
      from by decide,
    show catHit "my transfer is pending" (Exp.mk 1 "t" "" "" "" "en" "") = false from by decide]
  have h0 := round2_intCast 0
  have h5 := round2_intCast 5
  norm_num at h0 h5 ⊢
  rw [h0, h5]
  norm_num

/-- C9 (amended): a card whose category field is the *empty string* never
receives the category bonus, even though the empty string is a substring of
every query: the final score is exactly the pre-category score.  (The
original claim also covered whitespace-only categories, but the single-space
category `" "` does get the bonus against a query whose normalized form
contains a space — see the counterexample.) -/
theorem c9_empty_category_no_bonus (q : String) (e : Exp) (h : e.category = "") :
    (score_experience q e).score = round2 (preCategoryScore q e) := by
  have hcat : catHit q e = false := by
    simp only [catHit, h]
    rfl
  rw [score_experience_score, hcat, preCategoryScore]
  simp

/-- Witness for C9: a blank-category card scored against a concrete query. -/
theorem c9_empty_category_no_bonus_witness :
    (score_experience "hello there friend" (Exp.mk 1 "t" "" "" "" "en" "")).score
      = round2 (preCategoryScore "hello there friend" (Exp.mk 1 "t" "" "" "" "en" "")) :=
  c9_empty_category_no_bonus "hello there friend" (Exp.mk 1 "t" "" "" "" "en" "") rfl

/-- Counterexample for C9 as stated: the whitespace-only category `" "` is
non-empty (truthy), and `" "` is a substring of the multi-word normalized
query, so the `5.0` bonus IS added. -/
theorem c9_empty_category_no_bonus_cex :
    (score_experience "my transfer is pending" (Exp.mk 1 "t" " " "" "" "en" "")).score
      ≠ round2 (preCategoryScore "my transfer is pending" (Exp.mk 1 "t" " " "" "" "en" "")) := by
  rw [score_experience_score,
    show tokenize (Exp.mk 1 "t" " " "" "" "en" "").content = [] from rfl,
    cosine_sim_nil_right, preCategoryScore,
    show tokenize (Exp.mk 1 "t" " " "" "" "en" "").content = [] from rfl,
    cosine_sim_nil_right,
    show (overlapOf "my transfer is pending" (Exp.mk 1 "t" " " "" "" "en" "")).isEmpty = true
      from by decide,
    show catHit "my transfer is pending" (Exp.mk 1 "t" " " "" "" "en" "") = true from by decide]
  have h0 := round2_intCast 0
  have h5 := round2_intCast 5
  norm_num at h0 h5 ⊢
  rw [h0, h5]
  norm_num

/-! ## The question and card safety gates (C4, C5) -/

/-- C4: `safety_check_question` evaluates its five checks in the fixed order
banned-keyword, URL presence, 11-digit run, phone pattern, email pattern,
short-circuiting on the first failure and returning the corresponding reason
code; the reason is always one of the five codes or `"ok"`; and the example
question `"call 555-123-4567 now"` is rejected as `possible_phone`.  (The
gate is a pure function of its input, so it cannot mutate the question.) -/
theorem c4_safety_check_question_order :
    (∀ q, contains_banned_keywords q = true →
      safety_check_question q = (false, "banned_keywords"))
    ∧ (∀ q, contains_banned_keywords q = false → (extract_urls q).isEmpty = false →
      safety_check_question q = (false, "url_not_allowed"))
    ∧ (∀ q, contains_banned_keywords q = false → (extract_urls q).isEmpty = true →
      scanIdNumber false q.data = true →
      safety_check_question q = (false, "possible_id_number"))
    ∧ (∀ q, contains_banned_keywords q = false → (extract_urls q).isEmpty = true →
      scanIdNumber false q.data = false → scanPhone false q.data = true →
      safety_check_question q = (false, "possible_phone"))
    ∧ (∀ q, contains_banned_keywords q = false → (extract_urls q).isEmpty = true →
      scanIdNumber false q.data = false → scanPhone false q.data = false →
      scanEmail false q.data = true →
      safety_check_question q = (false, "possible_email"))
    ∧ (∀ q, contains_banned_keywords q = false → (extract_urls q).isEmpty = true →
      scanIdNumber false q.data = false → scanPhone false q.data = false →
      scanEmail false q.data = false → safety_check_question q = (true, "ok"))
    ∧ (∀ q, (safety_check_question q).2 = "banned_keywords"
        ∨ (safety_check_question q).2 = "url_not_allowed"
        ∨ (safety_check_question q).2 = "possible_id_number"
        ∨ (safety_check_question q).2 = "possible_phone"
        ∨ (safety_check_question q).2 = "possible_email"
        ∨ (safety_check_question q).2 = "ok")
    ∧ safety_check_question "call 555-123-4567 now" = (false, "possible_phone") := by
  refine ⟨?_, ?_, ?_, ?_, ?_, ?_, ?_, by decide⟩
  · intro q h
    simp [safety_check_question, h]
  · intro q h1 h2
    simp [safety_check_question, h1, h2]
  · intro q h1 h2 h3
    simp [safety_check_question, h1, h2, h3]
  · intro q h1 h2 h3 h4
    simp [safety_check_question, h1, h2, h3, h4]
  · intro q h1 h2 h3 h4 h5
    simp [safety_check_question, h1, h2, h3, h4, h5]
  · intro q h1 h2 h3 h4 h5
    simp [safety_check_question, h1, h2, h3, h4, h5]
  · intro q
    rw [safety_check_question]
    split_ifs <;> simp

/-- Witness for C4: the example question, rejected through the fourth gate
with all earlier gates passing. -/
theorem c4_safety_check_question_order_witness :
    safety_check_question "call 555-123-4567 now" = (false, "possible_phone") :=
  c4_safety_check_question_order.2.2.2.1 "call 555-123-4567 now"
    (by decide) (by decide) (by decide) (by decide)

/-- C5: a card submission with no banned keyword and no disallowed URL whose
content is shorter than 120 characters and splits into only 2 sentence
pieces is rejected with `low_structure_score`: those two conditions zero out
two of the five structure points, so the score is at most 3 < 4. -/
theorem c5_low_structure_rejection (title category tags content : String)
    (hb : contains_banned_keywords
      (title ++ " " ++ category ++ " " ++ tags ++ " " ++ content) = false)
    (hu : (extract_urls content).all (fun u => domain_allowed u) = true)
    (hlen : (normalize content).length < 120)
    (hsent : sentencePieces (normalize content).data = 2) :
    safety_check_experience title category tags content = (false, "low_structure_score") := by
  have hss : structure_score content < MIN_EXPERIENCE_STRUCTURE_SCORE := by
    have h1 : ¬ (120 ≤ (normalize content).length) := by omega
    have h5 : ¬ (3 ≤ sentencePieces (normalize content).data) := by omega
    simp only [structure_score, MIN_EXPERIENCE_STRUCTURE_SCORE, if_neg h1, if_neg h5]
    split_ifs <;> norm_num
  have hurl : (extract_urls content).any (fun u => !domain_allowed u) = false := by
    rw [List.any_eq_false]
    intro u hu2
    have hud := List.all_eq_true.mp hu u hu2
    simp [hud]
  simp only [safety_check_experience, hb, hurl, Bool.false_eq_true, if_false, if_pos hss]

/-- Witness for C5: a short two-sentence submission is rejected with
`low_structure_score`. -/
theorem c5_low_structure_rejection_witness :
    safety_check_experience "Card issue" "transfers" "" "I was confused. I tried again"
      = (false, "low_structure_score") :=
  c5_low_structure_rejection "Card issue" "transfers" "" "I was confused. I tried again"
    (by decide) (by decide) (by decide) (by decide)

/-! ## Lemmas about the ranker (stability and threshold filtering) -/

/-- The strict order the final ranking realises when the input rows have
strictly descending ids: score descending, ties by higher id first. -/
def rankOrder (a b : Scored) : Prop :=
  b.score < a.score ∨ (b.score = a.score ∧ b.id < a.id)

lemma pairwise_rankOrder_orderedInsert (x : Scored) (L : List Scored)
    (hs : L.Sorted scoreGe) (hp : L.Pairwise rankOrder) (hx : ∀ y ∈ L, y.id < x.id) :
    (List.orderedInsert scoreGe x L).Pairwise rankOrder := by
  induction L with
  | nil => simp [List.orderedInsert]
  | cons y ys ih =>
    rw [List.orderedInsert]
    by_cases h : scoreGe x y
    · rw [if_pos h]
      refine List.Pairwise.cons (fun z hz => ?_) hp
      have hzx : z.score ≤ x.score := by
        rcases List.mem_cons.mp hz with rfl | hz2
        · exact h
        · exact le_trans (List.rel_of_sorted_cons hs z hz2) h
      rcases lt_or_eq_of_le hzx with hlt | heq
      · exact Or.inl hlt
      · exact Or.inr ⟨heq, hx z hz⟩
    · rw [if_neg h]
      obtain ⟨hhead, htail⟩ := List.pairwise_cons.mp hp
      refine List.Pairwise.cons (fun z hz => ?_)
        (ih hs.of_cons htail (fun u hu => hx u (List.mem_cons_of_mem y hu)))
      rcases (List.mem_orderedInsert scoreGe).mp hz with rfl | hz2
      · exact Or.inl (lt_of_not_le h)
      · exact hhead z hz2

lemma pairwise_rankOrder_insertionSort (l : List Scored)
    (h : l.Pairwise (fun a b => b.id < a.id)) :
    (List.insertionSort scoreGe l).Pairwise rankOrder := by
  induction l with
  | nil => simp
  | cons x xs ih =>
    rw [List.insertionSort]
    obtain ⟨hhead, htail⟩ := List.pairwise_cons.mp h
    exact pairwise_rankOrder_orderedInsert x _ (List.sorted_insertionSort scoreGe xs)
      (ih htail) (fun y hy => hhead y ((List.mem_insertionSort scoreGe).mp hy))

lemma filter_orderedInsert_scoreGe (m : ℝ) (x : Scored) (L : List Scored)
    (hs : L.Sorted scoreGe) :
    (List.orderedInsert scoreGe x L).filter (fun s => decide (m ≤ s.score))
      = if m ≤ x.score
        then List.orderedInsert scoreGe x (L.filter (fun s => decide (m ≤ s.score)))
        else L.filter (fun s => decide (m ≤ s.score)) := by
  induction L with
  | nil =>
    by_cases hpx : m ≤ x.score
    · simp [List.orderedInsert, List.filter_cons, hpx]
    · simp [List.orderedInsert, List.filter_cons, hpx]
  | cons y ys ih =>
    rw [List.orderedInsert]
    by_cases hxy : scoreGe x y
    · rw [if_pos hxy]
      by_cases hpx : m ≤ x.score
      · rw [if_pos hpx, List.filter_cons,
          if_pos (show (decide (m ≤ x.score)) = true from by simp [hpx])]
        cases hf : (y :: ys).filter (fun s => decide (m ≤ s.score)) with
        | nil => rw [List.orderedInsert]
        | cons z zs =>
          have hz : z ∈ (y :: ys).filter (fun s => decide (m ≤ s.score)) := by
            rw [hf]; exact List.mem_cons_self z zs
          have hzmem : z ∈ y :: ys := List.mem_of_mem_filter hz
          have hzy : z.score ≤ y.score := by
            rcases List.mem_cons.mp hzmem with rfl | hz2
            · exact le_refl _
            · exact List.rel_of_sorted_cons hs z hz2
          rw [List.orderedInsert, if_pos (show scoreGe x z from le_trans hzy hxy)]
      · rw [if_neg hpx, List.filter_cons,
          if_neg (show ¬ (decide (m ≤ x.score)) = true from by simp [hpx])]
    · rw [if_neg hxy]
      have hxscore : x.score < y.score := lt_of_not_le hxy
      by_cases hpy : m ≤ y.score
      · by_cases hpx : m ≤ x.score
        · rw [if_pos hpx, List.filter_cons, List.filter_cons,
            if_pos (show (decide (m ≤ y.score)) = true from by simp [hpy]),
            if_pos (show (decide (m ≤ y.score)) = true from by simp [hpy]),
            ih hs.of_cons, if_pos hpx, List.orderedInsert, if_neg hxy]
        · rw [if_neg hpx, List.filter_cons, List.filter_cons,
            if_pos (show (decide (m ≤ y.score)) = true from by simp [hpy]),
            if_pos (show (decide (m ≤ y.score)) = true from by simp [hpy]),
            ih hs.of_cons, if_neg hpx]
      · have hpx : ¬ m ≤ x.score := fun hc => hpy (le_trans hc (le_of_lt hxscore))
        rw [if_neg hpx, List.filter_cons, List.filter_cons,
          if_neg (show ¬ (decide (m ≤ y.score)) = true from by simp [hpy]),
          if_neg (show ¬ (decide (m ≤ y.score)) = true from by simp [hpy]),
          ih hs.of_cons, if_neg hpx]

lemma filter_insertionSort_scoreGe (m : ℝ) (l : List Scored) :
    (List.insertionSort scoreGe l).filter (fun s => decide (m ≤ s.score))
      = List.insertionSort scoreGe (l.filter (fun s => decide (m ≤ s.score))) := by
  induction l with
  | nil => rfl
  | cons x xs ih =>
    rw [List.insertionSort,
      filter_orderedInsert_scoreGe m x _ (List.sorted_insertionSort scoreGe xs), ih,
      List.filter_cons]
    by_cases hpx : m ≤ x.score
    · rw [if_pos hpx, if_pos (show (decide (m ≤ x.score)) = true from by simp [hpx]),
        List.insertionSort]
    · rw [if_neg hpx, if_neg (show ¬ (decide (m ≤ x.score)) = true from by simp [hpx])]

lemma filter_eq_takeWhile_of_sorted (m : ℝ) (L : List Scored) (hs : L.Sorted scoreGe) :
    L.filter (fun s => decide (m ≤ s.score)) = L.takeWhile (fun s => decide (m ≤ s.score)) := by
  induction L with
  | nil => rfl
  | cons x xs ih =>
    rw [List.filter_cons, List.takeWhile_cons]
    by_cases hpx : m ≤ x.score
    · rw [if_pos (show (decide (m ≤ x.score)) = true from by simp [hpx]),
        if_pos (show (decide (m ≤ x.score)) = true from by simp [hpx]), ih hs.of_cons]
    · rw [if_neg (show ¬ (decide (m ≤ x.score)) = true from by simp [hpx]),
        if_neg (show ¬ (decide (m ≤ x.score)) = true from by simp [hpx])]
      rw [List.filter_eq_nil_iff]
      intro z hz
      have hzx : z.score ≤ x.score := List.rel_of_sorted_cons hs z hz
      simp only [decide_eq_true_eq]
      intro hc
      exact hpx (le_trans hc hzx)

/-- C3: `get_top_matches` keeps exactly the scored results whose final
rounded score is at least the threshold (membership in the ranked list is
equivalent to being a scored row with score ≥ `MIN_MATCH_SCORE`), every
returned result meets the threshold, the returned list is sorted by score
descending with ties broken by higher id first (for rows fetched in strictly
descending id order, as `ORDER BY id DESC` produces), and its length is at
most the limit. -/
theorem c3_get_top_matches_props (rows : List Exp) (q region : String) (limit : ℕ)
    (hids : rows.Pairwise (fun a b => b.id < a.id)) :
    (get_top_matches rows q region false limit).length ≤ limit
    ∧ (∀ s ∈ get_top_matches rows q region false limit, MIN_MATCH_SCORE ≤ s.score)
    ∧ (∀ s, s ∈ rankedOf MIN_MATCH_SCORE q rows ↔
        (s ∈ scoredOf q rows ∧ MIN_MATCH_SCORE ≤ s.score))
    ∧ (get_top_matches rows q region false limit).Pairwise scoreGe
    ∧ (get_top_matches rows q region false limit).Pairwise rankOrder := by
  have hgt : get_top_matches rows q region false limit
      = (rankedOf MIN_MATCH_SCORE q rows).take limit := rfl
  refine ⟨?_, ?_, ?_, ?_, ?_⟩
  · rw [hgt]
    exact List.length_take_le limit _
  · intro s hsmem
    rw [hgt] at hsmem
    have hmem : s ∈ rankedOf MIN_MATCH_SCORE q rows := List.take_subset _ _ hsmem
    rw [rankedOf, List.mem_insertionSort, keptOf, List.mem_filter] at hmem
    exact of_decide_eq_true hmem.2
  · intro s
    rw [rankedOf, List.mem_insertionSort, keptOf, List.mem_filter, decide_eq_true_eq]
  · rw [hgt]
    exact List.Pairwise.sublist (List.take_sublist _ _)
      (List.sorted_insertionSort scoreGe (keptOf MIN_MATCH_SCORE q rows))
  · rw [hgt]
    refine List.Pairwise.sublist (List.take_sublist _ _) ?_
    refine pairwise_rankOrder_insertionSort _ ?_
    exact List.Pairwise.filter _ (List.Pairwise.map _ (fun a b hab => hab) hids)

/-- Witness for C3 at a one-card store and a concrete query. -/
theorem c3_get_top_matches_props_witness :
    (get_top_matches [Exp.mk 1 "t" "" "" "" "en" ""] "hi there" "ca" false 5).length ≤ 5
    ∧ (∀ s ∈ get_top_matches [Exp.mk 1 "t" "" "" "" "en" ""] "hi there" "ca" false 5,
        MIN_MATCH_SCORE ≤ s.score)
    ∧ (∀ s, s ∈ rankedOf MIN_MATCH_SCORE "hi there" [Exp.mk 1 "t" "" "" "" "en" ""] ↔
        (s ∈ scoredOf "hi there" [Exp.mk 1 "t" "" "" "" "en" ""] ∧ MIN_MATCH_SCORE ≤ s.score))
    ∧ (get_top_matches [Exp.mk 1 "t" "" "" "" "en" ""] "hi there" "ca" false 5).Pairwise scoreGe
    ∧ (get_top_matches [Exp.mk 1 "t" "" "" "" "en" ""] "hi there" "ca" false 5).Pairwise
        rankOrder :=
  c3_get_top_matches_props [Exp.mk 1 "t" "" "" "" "en" ""] "hi there" "ca" 5 (by simp)

/-- C7: raising the minimum-score threshold can only shrink the ranked
result list: for `m1 ≤ m2` the result at threshold `m2` is an initial
segment of the result at threshold `m1`, hence no larger. -/
theorem c7_min_score_monotone (m1 m2 : ℝ) (rows : List Exp) (q : String) (limit : ℕ)
    (h : m1 ≤ m2) :
    (∃ t, get_top_matches_min m1 rows q limit = get_top_matches_min m2 rows q limit ++ t)
    ∧ (get_top_matches_min m2 rows q limit).length
        ≤ (get_top_matches_min m1 rows q limit).length := by
  have hpt : ∀ s : Scored,
      (decide (m2 ≤ s.score) && decide (m1 ≤ s.score)) = decide (m2 ≤ s.score) := by
    intro s
    by_cases h2 : m2 ≤ s.score
    · simp [h2, le_trans h h2]
    · simp [h2]
  have hkept : keptOf m2 q rows
      = (keptOf m1 q rows).filter (fun s => decide (m2 ≤ s.score)) := by
    rw [keptOf, keptOf, List.filter_filter]
    exact List.filter_congr (fun s _ => (hpt s).symm)
  have hrank : rankedOf m2 q rows
      = (rankedOf m1 q rows).takeWhile (fun s => decide (m2 ≤ s.score)) := by
    rw [rankedOf, hkept, ← filter_insertionSort_scoreGe m2,
      filter_eq_takeWhile_of_sorted m2 _
        (List.sorted_insertionSort scoreGe (keptOf m1 q rows)), rankedOf]
  have hsplit : rankedOf m1 q rows
      = rankedOf m2 q rows
        ++ (rankedOf m1 q rows).dropWhile (fun s => decide (m2 ≤ s.score)) := by
    rw [hrank, List.takeWhile_append_dropWhile]
  have hmain : get_top_matches_min m1 rows q limit
      = get_top_matches_min m2 rows q limit
        ++ ((rankedOf m1 q rows).dropWhile (fun s => decide (m2 ≤ s.score))).take
            (limit - (rankedOf m2 q rows).length) := by
    rw [get_top_matches_min, get_top_matches_min]
    conv_lhs => rw [hsplit]
    rw [List.take_append_eq_append_take]
  refine ⟨⟨_, hmain⟩, ?_⟩
  rw [hmain, List.length_append]
  exact Nat.le_add_right _ _

/-- Witness for C7 at thresholds `17 ≤ 18` over an empty store. -/
theorem c7_min_score_monotone_witness :
    (∃ t, get_top_matches_min 17 [] "hi" 5 = get_top_matches_min 18 [] "hi" 5 ++ t)
    ∧ (get_top_matches_min 18 [] "hi" 5).length ≤ (get_top_matches_min 17 [] "hi" 5).length :=
  c7_min_score_monotone 17 18 [] "hi" 5 (by norm_num)

/-- C8: with a store of zero cards, any question whose normalized form has
length ≥ 8 and passes the question safety gate gets a successful response
with an empty matches list — not an error and not a safety rejection. -/
theorem c8_empty_store_empty_matches (q r l p : String)
    (h8 : 8 ≤ (normalize q).length)
    (hsafe : (safety_check_question (normalize q)).1 = true) :
    ask [] q r l p = Except.ok (normalize q, []) := by
  have hne : ¬ (normalize q = "" ∨ (normalize q).length < 8) := by
    rintro (he | hl)
    · rw [he] at h8
      exact absurd h8 (by decide)
    · omega
  have hgm : ∀ (region : String) (demo : Bool),
      get_top_matches ([] : List Exp) (normalize q) region demo MAX_MATCHES = [] := by
    intro region demo
    rw [get_top_matches]
    cases demo <;> rfl
  simp only [ask, if_neg hne, if_neg (show ¬ ((safety_check_question (normalize q)).1 = false)
    from by simp [hsafe]), hgm]

/-- Witness for C8: a concrete safe question against the empty store. -/
theorem c8_empty_store_empty_matches_witness :
    ask [] "my transfer is pending" "ca" "en" "0"
      = Except.ok (normalize "my transfer is pending", []) :=
  c8_empty_store_empty_matches "my transfer is pending" "ca" "en" "0" (by decide) (by decide)

/-- C10: in demo mode, every region value other than exactly `"us"` (not
only `"ca"`) selects the cards whose tags contain `"canada"` (per SQLite
`LIKE`, case-insensitively), region `"us"` selects those containing
`"usa"`, and no region value leaves the candidate set unfiltered — a card
with empty tags is never selected. -/
theorem c10_region_filter (region : String) (rows : List Exp) (e : Exp) :
    (region ≠ "us" → (e ∈ demoSelect rows region ↔
        (e ∈ rows ∧ likeContains "canada" e.tags = true)))
    ∧ (e ∈ demoSelect rows "us" ↔ (e ∈ rows ∧ likeContains "usa" e.tags = true))
    ∧ (e.tags = "" → e ∉ demoSelect rows region) := by
  refine ⟨?_, ?_, ?_⟩
  · intro hus
    rw [demoSelect, List.mem_filter, _region_clause, if_neg hus]
  · rw [demoSelect, List.mem_filter, _region_clause, if_pos rfl]
  · intro htags hmem
    rw [demoSelect, List.mem_filter] at hmem
    have hlike := hmem.2
    rw [htags, _region_clause] at hlike
    revert hlike
    split_ifs <;> decide

/-- Witness for C10: a `"canada"`-tagged card is selected for region
`"ca"`, a `"usa"`-tagged card for region `"us"`, and a card with empty tags
is never selected. -/
theorem c10_region_filter_witness :
    (Exp.mk 1 "t" "" "maple canada" "" "en" "")
      ∈ demoSelect [Exp.mk 1 "t" "" "maple canada" "" "en" ""] "ca"
    ∧ (Exp.mk 2 "t" "" "usa east" "" "en" "")
      ∈ demoSelect [Exp.mk 2 "t" "" "usa east" "" "en" ""] "us"
    ∧ (Exp.mk 3 "t" "" "" "" "en" "") ∉ demoSelect [Exp.mk 3 "t" "" "" "" "en" ""] "ca" := by
  refine ⟨?_, ?_, ?_⟩
  · exact ((c10_region_filter "ca" [Exp.mk 1 "t" "" "maple canada" "" "en" ""]
      (Exp.mk 1 "t" "" "maple canada" "" "en" "")).1 (by decide)).mpr
      ⟨List.mem_cons_self _ _, by decide⟩
  · exact (c10_region_filter "us" [Exp.mk 2 "t" "" "usa east" "" "en" ""]
      (Exp.mk 2 "t" "" "usa east" "" "en" "")).2.1.mpr
      ⟨List.mem_cons_self _ _, by decide⟩
  · exact (c10_region_filter "ca" [Exp.mk 3 "t" "" "" "" "en" ""]
      (Exp.mk 3 "t" "" "" "" "en" "")).2.2 rfl

end ExpCards
